import Mathlib

/-!
Shallow embedding of the cargo-cite tool (src/main.rs) in Lean 4, together
with theorems that check the specification's claims against the embedding.

The embedding covers: the manifest data model (`PackageInfo`,
`DependencyInfo`, `ManifestInfo`), dependency source classification, the
citation formatter (`build_bibtex` and the dependency-mode record builder
`build_dependencies_bibtex`), the registry client
(`fetch_crate_metadata`, with the network as an explicit oracle), the
manifest locator (`find_cargo_files` over a directory-tree model using
walkdir's documented depth semantics), and the orchestrator
(`processCargoFile` / `mainRun`, with per-file I/O outcomes as explicit
environment data and file mutations as an explicit effect trace).
-/

/-- Constant `CARGO_FILE` from main.rs. -/
def CARGO_FILE : String := "Cargo.toml"

/-- Constant `CITATION_FILE` from main.rs. -/
def CITATION_FILE : String := "CITATION.bib"

/-- The generation timestamp: the two projections of chrono's
`Local::now()` that the code reads (`t.year()`, `t.month()`). -/
structure Date where
  year : Int
  month : Nat
deriving DecidableEq

/-- `PackageInfo` from main.rs (the `[package]` section). -/
structure PackageInfo where
  name : String
  version : String
  authors : List String
  description : Option String
  repository : Option String
  keywords : Option (List String)
deriving DecidableEq

/-- `DependencyInfo` from main.rs: an untagged union of a bare version
string and a detailed table with optional `version`, `path`, `git`. -/
inductive DependencyInfo where
  | Simple (v : String)
  | Detailed (version : Option String) (path : Option String) (git : Option String)
deriving DecidableEq

/-- Byte/char-wise lexicographic comparison on char lists, modelling the
`Ord` instance on `String` that Rust's `BTreeMap<String, _>` sorts by. -/
def lexLtb : List Char → List Char → Bool
  | [], [] => false
  | [], _ :: _ => true
  | _ :: _, [] => false
  | c :: cs, d :: ds => if c < d then true else if d < c then false else lexLtb cs ds

/-- String comparison used by the `BTreeMap` model. -/
def strLtb (a b : String) : Bool := lexLtb a.data b.data

/-- One insertion into the sorted-association-list model of
`BTreeMap<String, DependencyInfo>`: keeps keys strictly sorted, and a
repeated key replaces the stored value (as `BTreeMap::insert` does). -/
def btInsert (k : String) (v : DependencyInfo) :
    List (String × DependencyInfo) → List (String × DependencyInfo)
  | [] => [(k, v)]
  | (k', v') :: rest =>
    if strLtb k k' then (k, v) :: (k', v') :: rest
    else if k = k' then (k, v) :: rest
    else (k', v') :: btInsert k v rest

/-- The `BTreeMap<String, DependencyInfo>` built by deserializing a
dependency table whose entries appear in `l`'s order in the manifest:
entries are inserted one by one, so iteration order is sorted key order,
not declaration order. -/
def btreeFromList (l : List (String × DependencyInfo)) : List (String × DependencyInfo) :=
  l.foldl (fun acc p => btInsert p.1 p.2 acc) []

/-- `ManifestInfo` from main.rs. The `dependencies` field is the
`BTreeMap` modelled as its key-sorted association list (see
`btreeFromList`). -/
structure ManifestInfo where
  package : PackageInfo
  dependencies : Option (List (String × DependencyInfo))
deriving DecidableEq

/-- `CrateInfo` from main.rs (the `crate` object of the registry reply). -/
structure CrateInfo where
  description : Option String
  repository : Option String
  homepage : Option String
  authors : Option (List String)
deriving DecidableEq

/-- `CratesIoResponse` from main.rs. -/
structure CratesIoResponse where
  crate_info : CrateInfo
deriving DecidableEq

/-- An HTTP response as seen by `fetch_crate_metadata`: its status code,
and the result of deserializing its body into `CratesIoResponse`
(`none` models a body that fails to deserialize). The status is recorded
because the claims mention it; the code itself never reads it. -/
structure HttpResponse where
  status : Nat
  body : Option CratesIoResponse
deriving DecidableEq

/-- `CitationOption` from main.rs (gumdrop CLI options). -/
structure CitationOption where
  help : Bool
  generate : Bool
  overwrite : Bool
  readme_append : Bool
  path : Option String
  filename : Option String
  dependencies : Bool
  max_depth : Option Int
deriving DecidableEq

/-- `DependencyInfo::get_version` from main.rs. -/
def get_version : DependencyInfo → Option String
  | DependencyInfo.Simple v => some v
  | DependencyInfo.Detailed v _ _ => v

/-- `DependencyInfo::get_source_info` from main.rs: `(path, git)`. -/
def get_source_info : DependencyInfo → Option String × Option String
  | DependencyInfo.Simple _ => (none, none)
  | DependencyInfo.Detailed _ p g => (p, g)

/-- The three sourcing classes of a dependency (spec §4.2). -/
inductive SourceKind where
  | Registry
  | LocalPath (p : String)
  | VersionControl (g : String)
deriving DecidableEq

/-- Dependency classification as implemented by the branch chain in
`build_dependencies_bibtex` (main.rs lines 173-181): a present `path`
wins, then a present `git`, else registry. -/
def classify (info : DependencyInfo) : SourceKind :=
  match get_source_info info with
  | (some p, _) => SourceKind.LocalPath p
  | (none, some g) => SourceKind.VersionControl g
  | (none, none) => SourceKind.Registry

/-- `is_regular_dependency` from main.rs line 174. -/
def isRegistryDep (info : DependencyInfo) : Bool :=
  (get_source_info info).1.isNone && (get_source_info info).2.isNone

/-- Rust's `Vec::join(" and ")` as used for author lists in main.rs
(both in `build_bibtex` and in the dependency records). -/
def author_field : List String → String
  | [] => ""
  | [a] => a
  | a :: b :: rest => a ++ " and " ++ author_field (b :: rest)

/-- `PackageInfo::build_bibtex` from main.rs: the single project citation
record. Literal braces are written with `\x7b`/`\x7d` escapes. -/
def build_bibtex (date : Date) (p : PackageInfo) : String :=
  let description_part : String :=
    match p.description with
    | some s => ": " ++ s
    | none => ""
  "@misc\x7b" ++ p.name ++ ",\n\ttitle=\x7b" ++ p.name ++ description_part ++
    "\x7d,\n\tauthor=\x7b" ++ author_field p.authors ++
    "\x7d,\n\tversion = \x7b" ++ p.version ++
    "\x7d,\n\tmonth = " ++ toString date.month ++
    ",\n\tyear = " ++ toString date.year ++ ",\n" ++
    (match p.repository with
     | some url => "\turl = \x7b" ++ url ++ "\x7d,\n"
     | none => "") ++
    (match p.keywords with
     | some k => "\tkeywords = \x7b" ++ String.intercalate ", " k ++ "\x7d\n"
     | none => "") ++
    "\x7d\n"

/-- `PackageInfo::readme_section` from main.rs. -/
def readme_section : String :=
  "\n## Citing\n\nIf you found this software useful consider citing it. See CITATION.bib for the recommended BibTeX entry.\n"

/-- One pushed piece of a dependency record in
`build_dependencies_bibtex`; `render` recovers the exact pushed text. -/
inductive BibLine where
  | miscOpen (nm : String)
  | title (nm : String)
  | notePath (p : String)
  | urlLine (u : String)
  | noteGit
  | noteDesc (d : String)
  | authorLine (a : String)
  | versionLine (v : String)
  | yearLine (y : Int)
  | monthLine (m : Nat)
  | howpublished (nm : String)
  | close
deriving DecidableEq

/-- The exact text each `BibLine` stands for in main.rs's `push_str`
calls (`miscOpen` combines the `"@misc{"` push with the key push). -/
def render : BibLine → String
  | BibLine.miscOpen nm => "@misc\x7brust-" ++ nm ++ ",\n"
  | BibLine.title nm => "\ttitle=\x7b" ++ nm ++ "\x7d,\n"
  | BibLine.notePath p => "\tnote = \x7bLocal dependency from path: " ++ p ++ "\x7d,\n"
  | BibLine.urlLine u => "\turl = \x7b" ++ u ++ "\x7d,\n"
  | BibLine.noteGit => "\tnote = \x7bGit dependency\x7d,\n"
  | BibLine.noteDesc d => "\tnote = \x7b" ++ d ++ "\x7d,\n"
  | BibLine.authorLine a => "\tauthor = \x7b" ++ a ++ "\x7d,\n"
  | BibLine.versionLine v => "\tversion = \x7b" ++ v ++ "\x7d,\n"
  | BibLine.yearLine y => "\tyear = " ++ toString y ++ ",\n"
  | BibLine.monthLine m => "\tmonth = " ++ toString m ++ ",\n"
  | BibLine.howpublished nm => "\thowpublished = \x7bhttps://crates.io/crates/" ++ nm ++ "\x7d,\n"
  | BibLine.close => "\x7d\n\n"

/-- The enrichment lines pushed for a Registry dependency whose fetch
succeeded (main.rs lines 183-198): optional description note, optional
non-empty author join, optional repository-or-homepage url. -/
def registryMetaLines (md : CrateInfo) : List BibLine :=
  (match md.description with
   | some d => [BibLine.noteDesc d]
   | none => []) ++
  (match md.authors with
   | some as => if as.isEmpty then [] else [BibLine.authorLine (author_field as)]
   | none => []) ++
  (match md.repository.or md.homepage with
   | some u => [BibLine.urlLine u]
   | none => [])

/-- One dependency record of `build_dependencies_bibtex` (main.rs lines
167-215), as the list of pushed lines plus the list of names passed to
`fetch_crate_metadata` while building it (the call log: exactly one call
in the registry branch, none elsewhere). -/
def depEntry (fetch : String → Option CrateInfo) (date : Date) (nm : String)
    (info : DependencyInfo) : List BibLine × List String :=
  let src := get_source_info info
  let sourcing : List BibLine × List String :=
    match src.1, src.2 with
    | some p, _ => ([BibLine.notePath p], [])
    | none, some g => ([BibLine.urlLine g, BibLine.noteGit], [])
    | none, none =>
      match fetch nm with
      | some md => (registryMetaLines md, [nm])
      | none => ([], [nm])
  let versionLines : List BibLine :=
    match get_version info with
    | some v => [BibLine.versionLine v]
    | none => []
  let howpub : List BibLine :=
    if src.1.isNone && src.2.isNone then [BibLine.howpublished nm] else []
  ([BibLine.miscOpen nm, BibLine.title nm] ++ sourcing.1 ++ versionLines ++
    [BibLine.yearLine date.year, BibLine.monthLine date.month] ++ howpub ++
    [BibLine.close],
   sourcing.2)

/-- Concatenation of a list of strings in order (the sequence of
`push_str` calls on one result string). -/
def concatStrings : List String → String
  | [] => ""
  | s :: rest => s ++ concatStrings rest

/-- The dependency records of one manifest, keyed by dependency name, in
the iteration order of the stored dependency map. -/
def dependencyRecords (fetch : String → Option CrateInfo) (date : Date)
    (m : ManifestInfo) : List (String × List BibLine) :=
  match m.dependencies with
  | none => []
  | some deps => deps.map (fun p => (p.1, (depEntry fetch date p.1 p.2).1))

/-- `ManifestInfo::build_dependencies_bibtex` from main.rs: the
concatenated text of all dependency records of one manifest. -/
def build_dependencies_bibtex (fetch : String → Option CrateInfo) (date : Date)
    (m : ManifestInfo) : String :=
  concatStrings ((dependencyRecords fetch date m).map
    (fun r => concatStrings (r.2.map render)))

/-- The names passed to `fetch_crate_metadata` while building one
manifest's dependency bibliography, in call order. -/
def manifestFetchCalls (fetch : String → Option CrateInfo) (date : Date)
    (m : ManifestInfo) : List String :=
  match m.dependencies with
  | none => []
  | some deps => deps.flatMap (fun p => (depEntry fetch date p.1 p.2).2)

/-- The names of the Registry-classified dependencies of a manifest, in
map order. -/
def registryDepNames (m : ManifestInfo) : List String :=
  match m.dependencies with
  | none => []
  | some deps => (deps.filter (fun p => isRegistryDep p.2)).map (fun p => p.1)

/-- `ManifestInfo::fetch_crate_metadata` from main.rs, with the network
as an oracle `net` from crate name to the optional HTTP response
(`none` = transport failure). As in the code — where
`response.json::<CratesIoResponse>()` is called without any status
check — only the deserialization outcome of the body is inspected. -/
def fetch_crate_metadata (net : String → Option HttpResponse)
    (crate_name : String) : Option CrateInfo :=
  match net crate_name with
  | some response =>
    match response.body with
    | some data => some data.crate_info
    | none => none
  | none => none

/-- A directory tree, modelling the filesystem under the start
directory for `find_cargo_files`. -/
inductive FSTree where
  | file (nm : String)
  | dir (nm : String) (children : List FSTree)

/-- One entry yielded by the walk: its path from the walk root, whether
it is a regular file, and its file name. -/
structure WalkEntry where
  path : List String
  isFile : Bool
  name : String
deriving DecidableEq

/-- walkdir's depth test: an entry is yielded iff its depth does not
exceed the configured `max_depth` (the walk root itself has depth 0, its
direct children depth 1, and so on, per walkdir's documentation). -/
def withinDepth (maxd : Option Nat) (depth : Nat) : Bool :=
  match maxd with
  | some d => decide (depth ≤ d)
  | none => true

mutual
/-- Depth-first walk from one tree node at the given depth, yielding the
node before its children, as `WalkDir` does. -/
def walkTree (maxd : Option Nat) (depth : Nat) (pre : List String) :
    FSTree → List WalkEntry
  | FSTree.file nm =>
    if withinDepth maxd depth then [⟨pre ++ [nm], true, nm⟩] else []
  | FSTree.dir nm cs =>
    if withinDepth maxd depth then
      ⟨pre ++ [nm], false, nm⟩ :: walkForest maxd (depth + 1) (pre ++ [nm]) cs
    else []
/-- Walk of a list of sibling nodes, in list order. -/
def walkForest (maxd : Option Nat) (depth : Nat) (pre : List String) :
    List FSTree → List WalkEntry
  | [] => []
  | c :: cs => walkTree maxd depth pre c ++ walkForest maxd depth pre cs
end

/-- `find_cargo_files` from main.rs (lines 221-246): translate the `i32`
depth option exactly as the code does (`Some(d)` with `d >= 0` caps the
walk at `d`; a negative value or `None` leaves it unbounded), walk, and
keep the paths of regular files named `Cargo.toml`. -/
def find_cargo_files (start_dir : FSTree) (max_depth : Option Int) :
    List (List String) :=
  let maxd : Option Nat :=
    match max_depth with
    | some d => if 0 ≤ d then some d.toNat else none
    | none => none
  ((walkTree maxd 0 [] start_dir).filter
    (fun e => e.isFile && e.name == CARGO_FILE)).map (fun e => e.path)

/-- The per-file I/O outcomes the environment hands to
`process_cargo_file` for one discovered manifest: whether the open and
read succeed, the parse result of the content, whether listing the
parent directory succeeds, the directory entries (name, and whether
appending to that entry would succeed), whether the citation destination
already exists, and whether writing it would succeed. -/
structure FileCtx where
  openOk : Bool
  readOk : Bool
  parsed : Option ManifestInfo
  readmeDirOk : Bool
  readmeEntries : List (String × Bool)
  destExists : Bool
  writeOk : Bool
deriving DecidableEq

/-- An observable file-system or console mutation performed by the run. -/
inductive Effect where
  | readmeAppend (nm : String)
  | writeCitation (dest : String) (content : String)
  | noticeExists (dest : String)
  | stdoutPrint (s : String)
  | writeAgg (dest : String) (content : String)
  | noticeAggExists
deriving DecidableEq

/-- The README loop of `process_cargo_file` (main.rs lines 284-292):
append to every directory entry whose name contains "README"; the first
failing append aborts the whole `process_cargo_file` call with an error
(the code uses `?` on `open` and `write_all`). -/
def readmeLoop : List (String × Bool) → List Effect × Option String
  | [] => ([], none)
  | (nm, ok) :: rest =>
    if "README".data <:+: nm.data then
      if ok then
        let r := readmeLoop rest
        (Effect.readmeAppend nm :: r.1, r.2)
      else ([], some "readme append failed")
    else readmeLoop rest

/-- The README phase of `process_cargo_file`: nothing unless
`readme_append` is set; a failing `read_dir` is an error (the code uses
`?` on it). -/
def readmePhase (opt : CitationOption) (ctx : FileCtx) :
    List Effect × Option String :=
  if opt.readme_append then
    if ctx.readmeDirOk then readmeLoop ctx.readmeEntries
    else ([], some "read_dir failed")
  else ([], none)

/-- `process_cargo_file` from main.rs (lines 248-312): open/read/parse
failures are absorbed on the spot into `Ok((false, ""))`; dependency
mode returns the dependency bibliography before any README or citation
writing; README and citation-write failures escape as `Err` (the code's
`?`); an existing destination without `--overwrite` is a notice and
`Ok((false, ""))`; otherwise the citation file is written. -/
def processCargoFile (fetch : String → Option CrateInfo) (date : Date)
    (opt : CitationOption) (ctx : FileCtx) :
    List Effect × Except String (Bool × String) :=
  if ctx.openOk then
    if ctx.readOk then
      match ctx.parsed with
      | some manifest =>
        if opt.dependencies then
          ([], Except.ok (true, build_dependencies_bibtex fetch date manifest))
        else
          match readmePhase opt ctx with
          | (effs, some e) => (effs, Except.error e)
          | (effs, none) =>
            let r := build_bibtex date manifest.package
            let output_file := opt.filename.getD CITATION_FILE
            if ctx.destExists && !opt.overwrite then
              (effs ++ [Effect.noticeExists output_file], Except.ok (false, ""))
            else if ctx.writeOk then
              (effs ++ [Effect.writeCitation output_file r], Except.ok (true, ""))
            else (effs, Except.error "write failed")
      | none => ([], Except.ok (false, ""))
    else ([], Except.ok (false, ""))
  else ([], Except.ok (false, ""))

/-- Outcome of the per-manifest loop in `main`. -/
structure LoopResult where
  processed : Nat
  skipped : Nat
  effects : List Effect
  allDeps : String
deriving DecidableEq

/-- The per-manifest loop of `main` (lines 390-408): an `Ok((true, d))`
counts as processed (and in dependency mode `d` is appended to the
accumulated text); `Ok((false, _))` and `Err` both count as skipped and
never stop the loop. -/
def loopFiles (fetch : String → Option CrateInfo) (date : Date)
    (opt : CitationOption) : List FileCtx → LoopResult
  | [] => ⟨0, 0, [], ""⟩
  | ctx :: rest =>
    let pr := processCargoFile fetch date opt ctx
    let lr := loopFiles fetch date opt rest
    match pr.2 with
    | Except.ok (true, deps) =>
      ⟨lr.processed + 1, lr.skipped, pr.1 ++ lr.effects,
        (if opt.dependencies then deps else "") ++ lr.allDeps⟩
    | Except.ok (false, _) =>
      ⟨lr.processed, lr.skipped + 1, pr.1 ++ lr.effects, lr.allDeps⟩
    | Except.error _ =>
      ⟨lr.processed, lr.skipped + 1, pr.1 ++ lr.effects, lr.allDeps⟩

/-- The run environment of `main`: whether the start directory exists,
the discovered manifests with their per-file I/O outcomes (in discovery
order), and the aggregate dependency file's state. -/
structure RunEnv where
  rootExists : Bool
  files : List FileCtx
  aggExists : Bool
  aggWriteOk : Bool

/-- Outcome of `main`: the effect trace, the two summary counters, and
the process result (`Except.error` models `main` returning `Err`, which
terminates the process with an error). -/
structure MainResult where
  effects : List Effect
  processed : Nat
  skipped : Nat
  result : Except String Unit

/-- `main` from main.rs (lines 314-448): a missing start directory ends
the run cleanly and early; each manifest is processed with errors
converted to skips; in dependency mode a non-empty accumulated text is
printed to stdout when the configured filename is the sentinel
`"STDOUT"`, skipped with a notice when the aggregate file exists without
`--overwrite`, and otherwise written — where the code's
`fs::write(..)?` makes a failing aggregate write an `Err` return from
`main`. -/
def mainRun (env : RunEnv) (opt : CitationOption)
    (fetch : String → Option CrateInfo) (date : Date) : MainResult :=
  if env.rootExists then
    let lr := loopFiles fetch date opt env.files
    if opt.dependencies && !(lr.allDeps == "") then
      let output_file := opt.filename.getD "DEPENDENCIES.bib"
      if output_file == "STDOUT" then
        ⟨lr.effects ++ [Effect.stdoutPrint lr.allDeps], lr.processed, lr.skipped,
          Except.ok ()⟩
      else if env.aggExists && !opt.overwrite then
        ⟨lr.effects ++ [Effect.noticeAggExists], lr.processed, lr.skipped,
          Except.ok ()⟩
      else if env.aggWriteOk then
        ⟨lr.effects ++ [Effect.writeAgg output_file lr.allDeps], lr.processed,
          lr.skipped, Except.ok ()⟩
      else ⟨lr.effects, lr.processed, lr.skipped,
        Except.error "aggregate write failed"⟩
    else ⟨lr.effects, lr.processed, lr.skipped, Except.ok ()⟩
  else ⟨[], 0, 0, Except.ok ()⟩

/-- Replay of one effect on a file-system snapshot (name ↦ contents). -/
def applyOne (fs : String → Option String) : Effect → String → Option String
  | Effect.writeCitation d c => fun n => if n = d then some c else fs n
  | Effect.writeAgg d c => fun n => if n = d then some c else fs n
  | Effect.readmeAppend nm =>
    fun n => if n = nm then some ((fs nm).getD "" ++ readme_section) else fs n
  | Effect.noticeExists _ => fs
  | Effect.stdoutPrint _ => fs
  | Effect.noticeAggExists => fs

/-- Replay of an effect trace, left to right. -/
def applyEffects (fs : String → Option String) : List Effect → String → Option String
  | [] => fs
  | e :: rest => applyEffects (applyOne fs e) rest

/-- The file an effect writes to or appends to, if any. -/
def effectTarget : Effect → Option String
  | Effect.writeCitation d _ => some d
  | Effect.writeAgg d _ => some d
  | Effect.readmeAppend nm => some nm
  | Effect.noticeExists _ => none
  | Effect.stdoutPrint _ => none
  | Effect.noticeAggExists => none

/-- The separator `" and "` as a char list. -/
def sepChars : List Char := [' ', 'a', 'n', 'd', ' ']

/-- Number of (possibly overlapping) occurrences of `p` in a char list:
one per position at which `p` is a prefix of the remaining suffix. -/
def countOcc (p : List Char) : List Char → Nat
  | [] => 0
  | c :: t => (if p <+: (c :: t) then 1 else 0) + countOcc p t

/-- The char-list image of `author_field`. -/
def jf : List (List Char) → List Char
  | [] => []
  | [a] => a
  | a :: b :: r => a ++ sepChars ++ jf (b :: r)

/-- An author name that can create or absorb an occurrence of `" and "`
at or across a join boundary: when padded with one space on each side it
contains `" and "` (equivalently: the name contains `" and "`, starts
with `"and "`, or ends with `" and"`). -/
def badAuthor (a : List Char) : Prop := sepChars <:+: (' ' :: (a ++ [' ']))

instance (a : List Char) : Decidable (badAuthor a) := by
  unfold badAuthor; exact List.decidableInfix _ _

/-- A fully succeeding `FileCtx` carrying a parsed manifest. -/
def okCtx (m : ManifestInfo) : FileCtx := ⟨true, true, some m, true, [], false, true⟩

/-- The key list of an association list. -/
def keysOf (l : List (String × DependencyInfo)) : List String := l.map (fun p => p.1)

/-- A fixed generation date used for concrete evaluations. -/
def date0 : Date := ⟨2026, 10⟩

/-- A registry oracle on which every lookup fails. -/
def fetchNone : String → Option CrateInfo := fun _ => none

/-- A network oracle on which every request fails at transport level. -/
def netNone : String → Option HttpResponse := fun _ => none

/-- A small package. -/
def pkg0 : PackageInfo := ⟨"foo", "0.1.0", ["A B"], none, none, none⟩

/-- A manifest with one registry dependency. -/
def m0 : ManifestInfo :=
  ⟨pkg0, some (btreeFromList [("serde", DependencyInfo.Simple "1.0")])⟩

/-- A dependency table declared with keys out of sorted order. -/
def declC2 : List (String × DependencyInfo) :=
  [("tokio", DependencyInfo.Simple "1.0"), ("serde", DependencyInfo.Simple "1.0")]

/-- The manifest parsed from `declC2`. -/
def mC2 : ManifestInfo := ⟨pkg0, some (btreeFromList declC2)⟩

/-- Registry metadata used in the status counterexample. -/
def ci404 : CrateInfo := ⟨some "a serialization framework", none, none, none⟩

/-- A network oracle that answers every request with HTTP status 404 but
a body that still deserializes into the expected shape. -/
def net404 : String → Option HttpResponse :=
  fun _ => some ⟨404, some ⟨ci404⟩⟩

/-- A directory containing a manifest file directly inside it. -/
def c1TreeDirect : FSTree := FSTree.dir "root" [FSTree.file "Cargo.toml"]

/-- A directory containing a manifest one level below it. -/
def c1TreeNested : FSTree :=
  FSTree.dir "root" [FSTree.dir "sub" [FSTree.file "Cargo.toml"]]

/-- Default options: nothing enabled. -/
def optPlain : CitationOption := ⟨false, false, false, false, none, none, false, none⟩

/-- Dependency mode. -/
def optDeps : CitationOption := ⟨false, false, false, false, none, none, true, none⟩

/-- Dependency mode with README append also requested. -/
def optDepR : CitationOption := ⟨false, false, false, true, none, none, true, none⟩

/-- Overwrite mode. -/
def optOver : CitationOption := ⟨false, false, true, false, none, none, false, none⟩

/-- Non-dependency mode with the filename set to the sentinel value. -/
def optStd : CitationOption :=
  ⟨false, false, false, false, none, some "STDOUT", false, none⟩

/-- Dependency mode with the filename set to the sentinel value. -/
def optStdD : CitationOption :=
  ⟨false, false, false, false, none, some "STDOUT", true, none⟩

/-- A file context whose citation destination already exists. -/
def ctx6 : FileCtx := ⟨true, true, some m0, true, [], true, true⟩

/-- A file context whose open fails. -/
def ctxOpenFail : FileCtx := ⟨false, true, some m0, true, [], false, true⟩

/-- A file context whose citation write fails. -/
def ctxWriteFail : FileCtx := ⟨true, true, some m0, true, [], false, false⟩

/-- A fully succeeding file context with a README entry present. -/
def ctx10 : FileCtx := ⟨true, true, some m0, true, [("README.md", true)], false, true⟩

/-- A run environment in which the aggregate write fails. -/
def envC3 : RunEnv := ⟨true, [okCtx m0], false, false⟩

/-- A run environment whose start directory does not exist. -/
def envNoRoot : RunEnv := ⟨false, [], false, true⟩

/-- A healthy run environment with one discovered manifest. -/
def env9 : RunEnv := ⟨true, [okCtx m0], false, true⟩

/-- A file-system snapshot holding an existing citation file. -/
def fs0 : String → Option String :=
  fun n => if n = "CITATION.bib" then some "old" else none

/-- A `howpublished` line is never among the registry enrichment lines. -/
theorem howpub_not_mem_registryMetaLines (md : CrateInfo) (nm : String) :
    BibLine.howpublished nm ∉ registryMetaLines md := by
  rcases md with ⟨d, r, h, a⟩
  intro hmem
  simp only [registryMetaLines, List.mem_append] at hmem
  rcases hmem with (h1 | h2) | h3
  · cases d <;> simp at h1
  · cases a with
    | none => simp at h2
    | some as =>
      by_cases he : as.isEmpty <;> simp [he] at h2
  · rcases hu : Option.or r h with _ | u <;> simp [hu] at h3

/-- Claim C5: dependency classification. A Detailed reference with a
present path classifies as LocalPath even when a git field is also set;
otherwise a present version-control locator classifies as
VersionControl; otherwise, including every Simple reference, it
classifies as Registry. -/
theorem dependency_classification :
    (∀ v p g, classify (DependencyInfo.Detailed v (some p) g) = SourceKind.LocalPath p) ∧
    (∀ v g, classify (DependencyInfo.Detailed v none (some g)) = SourceKind.VersionControl g) ∧
    (∀ s, classify (DependencyInfo.Simple s) = SourceKind.Registry) ∧
    (∀ v, classify (DependencyInfo.Detailed v none none) = SourceKind.Registry) :=
  ⟨fun _ _ _ => rfl, fun _ _ => rfl, fun _ => rfl, fun _ => rfl⟩

/-- Claim C7: a `howpublished` line keyed by a name appears among the
pushed lines of a dependency record if and only if that name is the
dependency's name and the dependency classified as Registry; it never
appears for a local-path or version-control dependency. -/
theorem howpublished_iff_registry (fetch : String → Option CrateInfo) (date : Date)
    (nm nm' : String) (info : DependencyInfo) :
    BibLine.howpublished nm' ∈ (depEntry fetch date nm info).1 ↔
      nm' = nm ∧ classify info = SourceKind.Registry := by
  rcases info with v | ⟨ver, p, g⟩
  · rcases hf : fetch nm with _ | md <;>
      simp [depEntry, get_source_info, get_version, classify, hf,
        howpub_not_mem_registryMetaLines]
  · rcases p with _ | p'
    · rcases g with _ | g'
      · rcases hf : fetch nm with _ | md <;> rcases ver with _ | v' <;>
          simp [depEntry, get_source_info, get_version, classify, hf,
            howpub_not_mem_registryMetaLines]
      · rcases ver with _ | v' <;>
          simp [depEntry, get_source_info, get_version, classify]
    · rcases ver with _ | v' <;>
        simp [depEntry, get_source_info, get_version, classify]

/-- Claim C1 (evaluation at the failing input): with `max_depth = 0` the
locator returns nothing even when a manifest sits directly inside the
start directory, because walkdir's depth 0 is the root entry itself;
unbounded (unset or negative) and positive depths do return it. -/
theorem find_depth_zero_misses_direct_manifest :
    find_cargo_files c1TreeDirect (some 0) = [] ∧
    find_cargo_files c1TreeDirect none = [["root", "Cargo.toml"]] ∧
    find_cargo_files c1TreeDirect (some (-1)) = [["root", "Cargo.toml"]] ∧
    find_cargo_files c1TreeDirect (some 1) = [["root", "Cargo.toml"]] ∧
    find_cargo_files c1TreeNested (some 0) = [] ∧
    find_cargo_files c1TreeNested (some 1) = [] ∧
    find_cargo_files c1TreeNested none = [["root", "sub", "Cargo.toml"]] ∧
    find_cargo_files c1TreeNested (some (-1)) = [["root", "sub", "Cargo.toml"]] ∧
    find_cargo_files c1TreeNested (some 2) = [["root", "sub", "Cargo.toml"]] :=
  ⟨rfl, rfl, rfl, rfl, rfl, rfl, rfl, rfl, rfl⟩

/-- In dependency mode `process_cargo_file` with a parsed manifest
returns the dependency bibliography and performs no effects. -/
theorem processCargoFile_dep_okCtx (fetch : String → Option CrateInfo) (date : Date)
    (opt : CitationOption) (m : ManifestInfo) (hdep : opt.dependencies = true) :
    processCargoFile fetch date opt (okCtx m) =
      ([], Except.ok (true, build_dependencies_bibtex fetch date m)) := by
  simp [processCargoFile, okCtx, hdep]

/-- Claim C10: when dependency mode is set, processing performs no
effects at all (in particular no README append, even when requested) and,
once the manifest parses, returns the dependency bibliography
immediately. -/
theorem dependency_mode_skips_readme (fetch : String → Option CrateInfo) (date : Date)
    (opt : CitationOption) (hdep : opt.dependencies = true) :
    (∀ ctx, (processCargoFile fetch date opt ctx).1 = []) ∧
    (∀ ctx m, ctx.openOk = true → ctx.readOk = true → ctx.parsed = some m →
      processCargoFile fetch date opt ctx =
        ([], Except.ok (true, build_dependencies_bibtex fetch date m))) := by
  constructor
  · intro ctx
    rcases ho : ctx.openOk <;> rcases hr : ctx.readOk <;> rcases hp : ctx.parsed with _ | m <;>
      simp [processCargoFile, ho, hr, hp, hdep]
  · intro ctx m ho hr hp
    simp [processCargoFile, ho, hr, hp, hdep]

/-- Witness for claim C10 at a concrete input: README append is
requested, a README file is present, yet no effect happens. -/
theorem dependency_mode_skips_readme_witness :
    (processCargoFile fetchNone date0 optDepR ctx10).1 = [] ∧
    processCargoFile fetchNone date0 optDepR ctx10 =
      ([], Except.ok (true, build_dependencies_bibtex fetchNone date0 m0)) := by
  have h := dependency_mode_skips_readme fetchNone date0 optDepR rfl
  exact ⟨h.1 ctx10, h.2 ctx10 m0 rfl rfl rfl⟩

/-- Replaying an effect whose target is a different file leaves a file
unchanged. -/
theorem applyOne_ne (fs : String → Option String) (e : Effect) (d : String)
    (h : effectTarget e ≠ some d) : applyOne fs e d = fs d := by
  rcases e with nm | ⟨d', c⟩ | d' | s | ⟨d', c⟩ | _ <;>
    simp [applyOne, effectTarget] at h ⊢ <;>
    exact fun hd => absurd hd.symm h

/-- Replaying a trace is replaying its two halves in order. -/
theorem applyEffects_append (fs : String → Option String) (l₁ l₂ : List Effect) :
    applyEffects fs (l₁ ++ l₂) = applyEffects (applyEffects fs l₁) l₂ := by
  induction l₁ generalizing fs with
  | nil => rfl
  | cons e t ih => simp [applyEffects, ih]

/-- Replaying a trace none of whose effects targets a file leaves that
file unchanged. -/
theorem applyEffects_untouched (fs : String → Option String) (l : List Effect)
    (d : String) (h : ∀ e ∈ l, effectTarget e ≠ some d) :
    applyEffects fs l d = fs d := by
  induction l generalizing fs with
  | nil => rfl
  | cons e t ih =>
    simp only [applyEffects]
    rw [ih _ (fun x hx => h x (List.mem_cons_of_mem e hx))]
    exact applyOne_ne fs e d (h e (List.mem_cons_self e t))

/-- Claim C6: when the citation destination exists and overwrite is not
set, processing emits only the notice (no write effect), returns a skip
that the loop counts, and replaying the trace leaves the destination's
bytes unchanged; with overwrite set (and a succeeding write) the trace
ends with a write of the formatted citation text, which fully replaces
the destination's content. -/
theorem existing_destination_guard
    (fetch : String → Option CrateInfo) (date : Date) (opt : CitationOption)
    (ctx : FileCtx) (m : ManifestInfo) (reffs : List Effect)
    (fs : String → Option String)
    (hdep : opt.dependencies = false) (ho : ctx.openOk = true)
    (hr : ctx.readOk = true) (hp : ctx.parsed = some m)
    (hreadme : readmePhase opt ctx = (reffs, none)) :
    (ctx.destExists = true → opt.overwrite = false →
      processCargoFile fetch date opt ctx =
        (reffs ++ [Effect.noticeExists (opt.filename.getD CITATION_FILE)],
          Except.ok (false, "")) ∧
      (loopFiles fetch date opt [ctx]).processed = 0 ∧
      (loopFiles fetch date opt [ctx]).skipped = 1 ∧
      ((∀ e ∈ reffs, effectTarget e ≠ some (opt.filename.getD CITATION_FILE)) →
        applyEffects fs
          (reffs ++ [Effect.noticeExists (opt.filename.getD CITATION_FILE)])
          (opt.filename.getD CITATION_FILE) =
          fs (opt.filename.getD CITATION_FILE))) ∧
    (opt.overwrite = true → ctx.writeOk = true →
      processCargoFile fetch date opt ctx =
        (reffs ++ [Effect.writeCitation (opt.filename.getD CITATION_FILE)
          (build_bibtex date m.package)], Except.ok (true, "")) ∧
      applyEffects fs
        (reffs ++ [Effect.writeCitation (opt.filename.getD CITATION_FILE)
          (build_bibtex date m.package)])
        (opt.filename.getD CITATION_FILE) =
        some (build_bibtex date m.package)) := by
  constructor
  · intro hex hov
    have hpc : processCargoFile fetch date opt ctx =
        (reffs ++ [Effect.noticeExists (opt.filename.getD CITATION_FILE)],
          Except.ok (false, "")) := by
      simp [processCargoFile, ho, hr, hp, hdep, hreadme, hex, hov]
    refine ⟨hpc, ?_, ?_, ?_⟩
    · simp [loopFiles, hpc]
    · simp [loopFiles, hpc]
    · intro htargets
      rw [applyEffects_append]
      simp only [applyEffects, applyOne]
      exact applyEffects_untouched _ _ _ htargets
  · intro hov hw
    have hpc : processCargoFile fetch date opt ctx =
        (reffs ++ [Effect.writeCitation (opt.filename.getD CITATION_FILE)
          (build_bibtex date m.package)], Except.ok (true, "")) := by
      simp [processCargoFile, ho, hr, hp, hdep, hreadme, hov, hw]
    refine ⟨hpc, ?_⟩
    rw [applyEffects_append]
    simp [applyEffects, applyOne]

/-- Witness for claim C6 at a concrete input: an existing
`CITATION.bib` without overwrite is skipped, counted, and keeps its old
bytes; with overwrite its content becomes the formatted citation. -/
theorem existing_destination_guard_witness :
    (processCargoFile fetchNone date0 optPlain ctx6 =
      ([Effect.noticeExists "CITATION.bib"], Except.ok (false, "")) ∧
     (loopFiles fetchNone date0 optPlain [ctx6]).processed = 0 ∧
     (loopFiles fetchNone date0 optPlain [ctx6]).skipped = 1 ∧
     applyEffects fs0 [Effect.noticeExists "CITATION.bib"] "CITATION.bib" =
       some "old") ∧
    (processCargoFile fetchNone date0 optOver ctx6 =
      ([Effect.writeCitation "CITATION.bib" (build_bibtex date0 m0.package)],
        Except.ok (true, "")) ∧
     applyEffects fs0
       [Effect.writeCitation "CITATION.bib" (build_bibtex date0 m0.package)]
       "CITATION.bib" = some (build_bibtex date0 m0.package)) := by
  constructor
  · have h := (existing_destination_guard fetchNone date0 optPlain ctx6 m0 [] fs0
      rfl rfl rfl rfl rfl).1 rfl rfl
    exact ⟨h.1, h.2.1, h.2.2.1, h.2.2.2 (by intro e he; simp at he)⟩
  · exact (existing_destination_guard fetchNone date0 optOver ctx6 m0 [] fs0
      rfl rfl rfl rfl rfl).2 rfl rfl

/-- The loop accounts for every discovered manifest as processed or
skipped. -/
theorem loopFiles_counts (fetch : String → Option CrateInfo) (date : Date)
    (opt : CitationOption) (l : List FileCtx) :
    (loopFiles fetch date opt l).processed + (loopFiles fetch date opt l).skipped =
      l.length := by
  induction l with
  | nil => rfl
  | cons ctx rest ih =>
    simp only [loopFiles]
    split <;> simp only [List.length_cons] <;> omega

/-- Claim C3 (counterexample): a per-file citation-write failure is not
absorbed at the point of occurrence — `process_cargo_file` returns it to
its caller as an error — and a failing aggregate dependency-file write
terminates the run with an error result rather than a skip. -/
theorem per_file_error_termination_counterexample :
    processCargoFile fetchNone date0 optPlain ctxWriteFail =
      ([], Except.error "write failed") ∧
    (mainRun envC3 optDeps fetchNone date0).result =
      Except.error "aggregate write failed" := ⟨rfl, rfl⟩

/-- Claim C3 (amended): open, read and parse failures are absorbed on
the spot as skips; the loop converts every per-file outcome (including
write and README errors, which `process_cargo_file` returns to `main`)
into a processed or skipped count; a missing root directory ends the run
early and cleanly; and the only error termination of the whole run is a
failing aggregate dependency-file write in dependency mode. -/
theorem error_absorption_amended (fetch : String → Option CrateInfo) (date : Date)
    (opt : CitationOption) (env : RunEnv) :
    (∀ ctx, ctx.openOk = false →
      processCargoFile fetch date opt ctx = ([], Except.ok (false, ""))) ∧
    (∀ ctx, ctx.readOk = false →
      processCargoFile fetch date opt ctx = ([], Except.ok (false, ""))) ∧
    (∀ ctx, ctx.parsed = none →
      processCargoFile fetch date opt ctx = ([], Except.ok (false, ""))) ∧
    ((loopFiles fetch date opt env.files).processed +
      (loopFiles fetch date opt env.files).skipped = env.files.length) ∧
    (env.rootExists = false → mainRun env opt fetch date = ⟨[], 0, 0, Except.ok ()⟩) ∧
    (∀ e, (mainRun env opt fetch date).result = Except.error e →
      opt.dependencies = true ∧ env.aggWriteOk = false) := by
  refine ⟨?_, ?_, ?_, loopFiles_counts fetch date opt env.files, ?_, ?_⟩
  · intro ctx h
    simp [processCargoFile, h]
  · intro ctx h
    rcases ho : ctx.openOk <;> simp [processCargoFile, ho, h]
  · intro ctx h
    rcases ho : ctx.openOk <;> rcases hr : ctx.readOk <;>
      simp [processCargoFile, ho, hr, h]
  · intro h
    simp [mainRun, h]
  · intro e h
    rcases hroot : env.rootExists with _ | _
    · simp [mainRun, hroot] at h
    · simp only [mainRun, hroot, if_true] at h
      by_cases hcond : (opt.dependencies &&
          !((loopFiles fetch date opt env.files).allDeps == "")) = true
      · rw [if_pos hcond] at h
        have hdep : opt.dependencies = true := (Bool.and_eq_true _ _).mp hcond |>.1
        refine ⟨hdep, ?_⟩
        by_cases hstd : ((opt.filename.getD "DEPENDENCIES.bib") == "STDOUT") = true
        · rw [if_pos hstd] at h
          simp at h
        · rw [if_neg hstd] at h
          by_cases hex : (env.aggExists && !opt.overwrite) = true
          · rw [if_pos hex] at h
            simp at h
          · rw [if_neg hex] at h
            rcases hw : env.aggWriteOk with _ | _
            · rfl
            · rw [if_pos (by rw [hw])] at h
              simp at h
      · rw [if_neg hcond] at h
        simp at h

/-- Witness for claim C3 at concrete inputs: an open failure is a skip,
a missing root directory is a clean early end, and the error run from
the counterexample environment indeed had dependency mode on and a
failing aggregate write. -/
theorem error_absorption_amended_witness :
    processCargoFile fetchNone date0 optPlain ctxOpenFail =
      ([], Except.ok (false, "")) ∧
    mainRun envNoRoot optPlain fetchNone date0 = ⟨[], 0, 0, Except.ok ()⟩ ∧
    (optDeps.dependencies = true ∧ envC3.aggWriteOk = false) := by
  refine ⟨?_, ?_, ?_⟩
  · exact (error_absorption_amended fetchNone date0 optPlain envNoRoot).1 ctxOpenFail rfl
  · exact (error_absorption_amended fetchNone date0 optPlain envNoRoot).2.2.2.2.1 rfl
  · exact (error_absorption_amended fetchNone date0 optDeps envC3).2.2.2.2.2
      "aggregate write failed" rfl

/-- Every effect of the README loop is a README append. -/
theorem readmeLoop_effects (entries : List (String × Bool)) :
    ∀ e ∈ (readmeLoop entries).1, ∃ nm, e = Effect.readmeAppend nm := by
  induction entries with
  | nil => simp [readmeLoop]
  | cons p rest ih =>
    rcases p with ⟨nm, ok⟩
    by_cases hin : "README".data <:+: nm.data
    · rcases ok with _ | _
      · simp [readmeLoop, hin]
      · simp only [readmeLoop, hin, if_true]
        intro e he
        rcases List.mem_cons.mp he with rfl | hmem
        · exact ⟨nm, rfl⟩
        · exact ih e hmem
    · simp only [readmeLoop, hin, if_neg, if_false]
      exact ih

/-- Every effect of the README phase is a README append. -/
theorem readmePhase_effects (opt : CitationOption) (ctx : FileCtx) :
    ∀ e ∈ (readmePhase opt ctx).1, ∃ nm, e = Effect.readmeAppend nm := by
  rcases ha : opt.readme_append with _ | _ <;>
    rcases hd : ctx.readmeDirOk with _ | _ <;>
      simp [readmePhase, ha, hd]
  exact readmeLoop_effects ctx.readmeEntries

/-- `process_cargo_file` never writes the aggregate dependency file. -/
theorem processCargoFile_no_writeAgg (fetch : String → Option CrateInfo)
    (date : Date) (opt : CitationOption) (ctx : FileCtx) (d c : String) :
    Effect.writeAgg d c ∉ (processCargoFile fetch date opt ctx).1 := by
  intro hmem
  have hre := readmePhase_effects opt ctx
  rcases ho : ctx.openOk <;> rcases hr : ctx.readOk <;>
    rcases hp : ctx.parsed with _ | m <;>
    rcases hdep : opt.dependencies with _ | _ <;>
    simp only [processCargoFile, ho, hr, hp, hdep, Bool.false_eq_true, if_true, if_false,
      Bool.true_eq_false] at hmem <;>
    try exact (List.not_mem_nil _ hmem)
  split at hmem
  next effs err heq =>
    rw [heq] at hre
    obtain ⟨nm, hnm⟩ := hre _ hmem
    simp at hnm
  next effs heq =>
    rw [heq] at hre
    split at hmem
    · simp only at hmem
      rcases List.mem_append.mp hmem with hm | hm
      · obtain ⟨nm, hnm⟩ := hre _ hm
        simp at hnm
      · simp at hm
    · split at hmem
      · simp only at hmem
        rcases List.mem_append.mp hmem with hm | hm
        · obtain ⟨nm, hnm⟩ := hre _ hm
          simp at hnm
        · simp at hm
      · obtain ⟨nm, hnm⟩ := hre _ hmem
        simp at hnm

/-- The loop never writes the aggregate dependency file. -/
theorem loopFiles_no_writeAgg (fetch : String → Option CrateInfo) (date : Date)
    (opt : CitationOption) (l : List FileCtx) (d c : String) :
    Effect.writeAgg d c ∉ (loopFiles fetch date opt l).effects := by
  induction l with
  | nil => simp [loopFiles]
  | cons ctx rest ih =>
    intro hmem
    have hsplit : Effect.writeAgg d c ∈
        (processCargoFile fetch date opt ctx).1 ++ (loopFiles fetch date opt rest).effects := by
      simp only [loopFiles] at hmem
      split at hmem <;> exact hmem
    rcases List.mem_append.mp hsplit with hm | hm
    · exact processCargoFile_no_writeAgg fetch date opt ctx d c hm
    · exact ih hm

/-- Claim C9: the value `"STDOUT"` is not a sentinel in non-dependency
mode — the destination file is literally named `STDOUT` and is subject
to the same existence/overwrite guard — while in dependency mode the
sentinel routes the aggregate text to standard output and no aggregate
file write happens. -/
theorem stdout_sentinel_scope
    (fetch : String → Option CrateInfo) (date : Date) (opt : CitationOption)
    (ctx : FileCtx) (m : ManifestInfo) (reffs : List Effect) (env : RunEnv)
    (hfile : opt.filename = some "STDOUT") :
    (opt.dependencies = false → ctx.openOk = true → ctx.readOk = true →
      ctx.parsed = some m → readmePhase opt ctx = (reffs, none) →
      (ctx.destExists = false → ctx.writeOk = true →
        processCargoFile fetch date opt ctx =
          (reffs ++ [Effect.writeCitation "STDOUT" (build_bibtex date m.package)],
            Except.ok (true, ""))) ∧
      (ctx.destExists = true → opt.overwrite = false →
        processCargoFile fetch date opt ctx =
          (reffs ++ [Effect.noticeExists "STDOUT"], Except.ok (false, "")))) ∧
    (opt.dependencies = true →
      (∀ d c, Effect.writeAgg d c ∉ (mainRun env opt fetch date).effects) ∧
      (env.rootExists = true →
        (loopFiles fetch date opt env.files).allDeps ≠ "" →
        (mainRun env opt fetch date).effects =
          (loopFiles fetch date opt env.files).effects ++
            [Effect.stdoutPrint (loopFiles fetch date opt env.files).allDeps])) := by
  constructor
  · intro hdep ho hr hp hrp
    constructor
    · intro hex hw
      simp [processCargoFile, ho, hr, hp, hdep, hrp, hfile, hex, hw]
    · intro hex hov
      simp [processCargoFile, ho, hr, hp, hdep, hrp, hfile, hex, hov]
  · intro hdep
    constructor
    · intro d c hmem
      rcases hroot : env.rootExists with _ | _
      · simp [mainRun, hroot] at hmem
      · simp only [mainRun, hroot, if_true] at hmem
        by_cases hcond : (opt.dependencies &&
            !((loopFiles fetch date opt env.files).allDeps == "")) = true
        · rw [if_pos hcond] at hmem
          rw [if_pos (show ((opt.filename.getD "DEPENDENCIES.bib") == "STDOUT") = true
            by simp [hfile])] at hmem
          simp only at hmem
          rcases List.mem_append.mp hmem with hm | hm
          · exact loopFiles_no_writeAgg fetch date opt env.files d c hm
          · simp at hm
        · rw [if_neg hcond] at hmem
          simp only at hmem
          exact loopFiles_no_writeAgg fetch date opt env.files d c hmem
    · intro hroot hne
      have h1 : ((loopFiles fetch date opt env.files).allDeps == "") = false :=
        beq_eq_false_iff_ne.mpr hne
      simp [mainRun, hroot, hdep, h1, hfile]

/-- Witness for claim C9 at concrete inputs: with filename `STDOUT` in
non-dependency mode a file named `STDOUT` is written; in dependency mode
the aggregate goes to standard output and no aggregate file is written. -/
theorem stdout_sentinel_scope_witness :
    processCargoFile fetchNone date0 optStd (okCtx m0) =
      ([Effect.writeCitation "STDOUT" (build_bibtex date0 m0.package)],
        Except.ok (true, "")) ∧
    Effect.writeAgg "DEPENDENCIES.bib" "x" ∉ (mainRun env9 optStdD fetchNone date0).effects ∧
    (mainRun env9 optStdD fetchNone date0).effects =
      (loopFiles fetchNone date0 optStdD env9.files).effects ++
        [Effect.stdoutPrint (loopFiles fetchNone date0 optStdD env9.files).allDeps] := by
  refine ⟨?_, ?_, ?_⟩
  · exact ((stdout_sentinel_scope fetchNone date0 optStd (okCtx m0) m0 [] env9 rfl).1
      rfl rfl rfl rfl rfl).1 rfl rfl
  · exact ((stdout_sentinel_scope fetchNone date0 optStdD (okCtx m0) m0 [] env9 rfl).2
      rfl).1 "DEPENDENCIES.bib" "x"
  · exact ((stdout_sentinel_scope fetchNone date0 optStdD (okCtx m0) m0 [] env9 rfl).2
      rfl).2 rfl (by decide)

/-- Claim C4 (counterexample): the registry fetch never inspects the
HTTP status — a status-404 response whose body still deserializes into
the expected shape yields `some`, not `none`. -/
theorem fetch_ignores_status_counterexample :
    net404 "serde" = some ⟨404, some ⟨ci404⟩⟩ ∧
    ¬(200 ≤ (404 : Nat) ∧ (404 : Nat) < 300) ∧
    fetch_crate_metadata net404 "serde" = some ci404 ∧
    fetch_crate_metadata net404 "serde" ≠ none :=
  ⟨rfl, by decide, rfl, by simp [fetch_crate_metadata, net404]⟩

/-- The fetch-call log of one dependency record: exactly the
dependency's name when it classified as Registry, nothing otherwise. -/
theorem depEntry_calls (fetch : String → Option CrateInfo) (date : Date)
    (nm : String) (info : DependencyInfo) :
    (depEntry fetch date nm info).2 = if isRegistryDep info then [nm] else [] := by
  rcases info with v | ⟨ver, p, g⟩
  · rcases hf : fetch nm with _ | md <;>
      simp [depEntry, get_source_info, isRegistryDep, hf]
  · rcases p with _ | p' <;> rcases g with _ | g'
    · rcases hf : fetch nm with _ | md <;>
        simp [depEntry, get_source_info, isRegistryDep, hf]
    · simp [depEntry, get_source_info, isRegistryDep]
    · simp [depEntry, get_source_info, isRegistryDep]
    · simp [depEntry, get_source_info, isRegistryDep]

/-- Claim C4 (amended): the fetch returns `none` exactly on transport
failure or a body that fails to deserialize — the HTTP status is never
inspected, so it does not influence the result — the function always
returns rather than aborting, and while building a manifest's dependency
bibliography exactly one fetch call is made per Registry-classified
dependency (none for local-path or version-control ones), with no
caching or retry. -/
theorem fetch_metadata_amended (net : String → Option HttpResponse)
    (nm : String) (fetch : String → Option CrateInfo) (date : Date)
    (m : ManifestInfo) :
    (net nm = none → fetch_crate_metadata net nm = none) ∧
    (∀ r, net nm = some r → r.body = none → fetch_crate_metadata net nm = none) ∧
    (∀ r dta, net nm = some r → r.body = some dta →
      fetch_crate_metadata net nm = some dta.crate_info) ∧
    (∀ s₁ s₂ b, fetch_crate_metadata (fun _ => some ⟨s₁, b⟩) nm =
      fetch_crate_metadata (fun _ => some ⟨s₂, b⟩) nm) ∧
    manifestFetchCalls fetch date m = registryDepNames m := by
  refine ⟨?_, ?_, ?_, ?_, ?_⟩
  · intro h; simp [fetch_crate_metadata, h]
  · intro r h hb; simp [fetch_crate_metadata, h, hb]
  · intro r dta h hb; simp [fetch_crate_metadata, h, hb]
  · intro s₁ s₂ b; rcases b with _ | dta <;> simp [fetch_crate_metadata]
  · rcases m with ⟨pkg, _ | deps⟩
    · rfl
    · simp only [manifestFetchCalls, registryDepNames, depEntry_calls]
      induction deps with
      | nil => rfl
      | cons p rest ih =>
        rcases hreg : isRegistryDep p.2 with _ | _ <;>
          simp [List.flatMap_cons, List.filter_cons, hreg, ih]

/-- Witness for claim C4 at concrete inputs: a transport failure yields
`none`, and the call log over a manifest with one registry dependency is
exactly that dependency's name. -/
theorem fetch_metadata_amended_witness :
    fetch_crate_metadata netNone "serde" = none ∧
    manifestFetchCalls fetchNone date0 m0 = registryDepNames m0 ∧
    registryDepNames m0 = ["serde"] := by
  refine ⟨?_, ?_, by decide⟩
  · exact (fetch_metadata_amended netNone "serde" fetchNone date0 m0).1 rfl
  · exact (fetch_metadata_amended netNone "serde" fetchNone date0 m0).2.2.2.2

/-- Lexicographic comparison is transitive. -/
theorem lexLtb_trans : ∀ (a b c : List Char),
    lexLtb a b = true → lexLtb b c = true → lexLtb a c = true := by
  intro a
  induction a with
  | nil =>
    intro b c h1 h2
    cases b with
    | nil => simp [lexLtb] at h1
    | cons y ys =>
      cases c with
      | nil => simp [lexLtb] at h2
      | cons z zs => simp [lexLtb]
  | cons x xs ih =>
    intro b c h1 h2
    cases b with
    | nil => simp [lexLtb] at h1
    | cons y ys =>
      cases c with
      | nil => simp [lexLtb] at h2
      | cons z zs =>
        simp only [lexLtb] at h1 h2 ⊢
        rcases lt_trichotomy x y with hxy | hxy | hxy
        · rcases lt_trichotomy y z with hyz | hyz | hyz
          · simp [lt_trans hxy hyz]
          · subst hyz
            simp [hxy]
          · rw [if_neg (asymm hyz), if_pos hyz] at h2
            exact absurd h2 (by simp)
        · subst hxy
          rcases lt_trichotomy x z with hxz | hxz | hxz
          · simp [hxz]
          · subst hxz
            rw [if_neg (lt_irrefl x), if_neg (lt_irrefl x)] at h1 h2 ⊢
            exact ih ys zs h1 h2
          · rw [if_neg (asymm hxz), if_pos hxz] at h2
            exact absurd h2 (by simp)
        · rw [if_neg (asymm hxy), if_pos hxy] at h1
          exact absurd h1 (by simp)

/-- Lexicographic comparison is total: two lists that compare `false`
both ways are equal. -/
theorem lexLtb_total : ∀ (a b : List Char),
    lexLtb a b = false → a ≠ b → lexLtb b a = true := by
  intro a
  induction a with
  | nil =>
    intro b h1 h2
    cases b with
    | nil => exact absurd rfl h2
    | cons y ys => simp [lexLtb] at h1
  | cons x xs ih =>
    intro b h1 h2
    cases b with
    | nil => simp [lexLtb]
    | cons y ys =>
      simp only [lexLtb] at h1 ⊢
      rcases lt_trichotomy x y with hxy | hxy | hxy
      · rw [if_pos hxy] at h1
        exact absurd h1 (by simp)
      · subst hxy
        rw [if_neg (lt_irrefl x), if_neg (lt_irrefl x)] at h1 ⊢
        exact ih ys h1 (fun he => h2 (by rw [he]))
      · rw [if_pos hxy]

/-- String comparison is transitive. -/
theorem strLtb_trans (a b c : String) :
    strLtb a b = true → strLtb b c = true → strLtb a c = true :=
  lexLtb_trans a.data b.data c.data

/-- String comparison is total. -/
theorem strLtb_total (a b : String) (h1 : strLtb a b = false) (h2 : a ≠ b) :
    strLtb b a = true :=
  lexLtb_total a.data b.data h1 (fun he => h2 (String.ext he))

/-- Membership in the keys after a `BTreeMap` insertion. -/
theorem mem_keys_btInsert (k a : String) (v : DependencyInfo)
    (l : List (String × DependencyInfo)) :
    a ∈ keysOf (btInsert k v l) ↔ a = k ∨ a ∈ keysOf l := by
  induction l with
  | nil => simp [btInsert, keysOf]
  | cons p rest ih =>
    rcases p with ⟨k', v'⟩
    by_cases h1 : strLtb k k' = true
    · simp only [btInsert]
      rw [if_pos h1]
      simp [keysOf]
    · by_cases h2 : k = k'
      · subst h2
        simp only [btInsert]
        rw [if_neg h1]
        simp [keysOf]
      · simp only [btInsert]
        rw [if_neg h1, if_neg h2]
        simp [keysOf] at ih ⊢
        tauto

/-- A `BTreeMap` insertion preserves strictly-sorted keys. -/
theorem pairwise_keys_btInsert (k : String) (v : DependencyInfo)
    (l : List (String × DependencyInfo))
    (h : (keysOf l).Pairwise (fun a b => strLtb a b = true)) :
    (keysOf (btInsert k v l)).Pairwise (fun a b => strLtb a b = true) := by
  induction l with
  | nil => simp [btInsert, keysOf]
  | cons p rest ih =>
    rcases p with ⟨k', v'⟩
    simp only [keysOf, List.map_cons, List.pairwise_cons] at h
    obtain ⟨hk', hrest⟩ := h
    by_cases h1 : strLtb k k' = true
    · simp only [btInsert]
      rw [if_pos h1]
      simp only [keysOf, List.map_cons, List.pairwise_cons]
      refine ⟨?_, ?_, hrest⟩
      · intro b hb
        rcases List.mem_cons.mp hb with rfl | hb'
        · exact h1
        · exact strLtb_trans k k' b h1 (hk' b (by simpa [keysOf] using hb'))
      · intro b hb
        exact hk' b (by simpa [keysOf] using hb)
    · by_cases h2 : k = k'
      · subst h2
        simp only [btInsert]
        rw [if_neg h1]
        simp only [eq_self_iff_true, if_true, keysOf, List.map_cons, List.pairwise_cons]
        exact ⟨fun b hb => hk' b (by simpa [keysOf] using hb), hrest⟩
      · have h3 : strLtb k' k = true :=
          strLtb_total k k' (by simpa using h1) h2
        simp only [btInsert]
        rw [if_neg h1, if_neg h2]
        simp only [keysOf, List.map_cons, List.pairwise_cons]
        refine ⟨?_, ?_⟩
        · intro b hb
          rcases (mem_keys_btInsert k b v rest).mp (by simpa [keysOf] using hb) with rfl | hb'
          · exact h3
          · exact hk' b (by simpa [keysOf] using hb')
        · exact ih hrest

/-- The parsed dependency map has strictly-sorted keys. -/
theorem keys_btreeFromList_sorted (l : List (String × DependencyInfo)) :
    (keysOf (btreeFromList l)).Pairwise (fun a b => strLtb a b = true) := by
  have main : ∀ (l acc : List (String × DependencyInfo)),
      (keysOf acc).Pairwise (fun a b => strLtb a b = true) →
      (keysOf (l.foldl (fun acc p => btInsert p.1 p.2 acc) acc)).Pairwise
        (fun a b => strLtb a b = true) := by
    intro l
    induction l with
    | nil => intro acc h; exact h
    | cons p rest ih =>
      intro acc h
      exact ih _ (pairwise_keys_btInsert p.1 p.2 acc h)
  exact main l [] (by simp [keysOf])

/-- The parsed dependency map has exactly the declared keys. -/
theorem mem_keys_btreeFromList (l : List (String × DependencyInfo)) (a : String) :
    a ∈ keysOf (btreeFromList l) ↔ a ∈ keysOf l := by
  have main : ∀ (l acc : List (String × DependencyInfo)),
      a ∈ keysOf (l.foldl (fun acc p => btInsert p.1 p.2 acc) acc) ↔
        a ∈ keysOf acc ∨ a ∈ keysOf l := by
    intro l
    induction l with
    | nil => intro acc; simp [keysOf]
    | cons p rest ih =>
      intro acc
      rw [List.foldl_cons, ih (btInsert p.1 p.2 acc), mem_keys_btInsert]
      simp [keysOf]
      tauto
  rw [btreeFromList, main l []]
  simp [keysOf]

/-- The record keys are the dependency-map keys, in map order. -/
theorem dependencyRecords_keys (fetch : String → Option CrateInfo) (date : Date)
    (pkg : PackageInfo) (deps : List (String × DependencyInfo)) :
    (dependencyRecords fetch date ⟨pkg, some deps⟩).map (fun r => r.1) = keysOf deps := by
  simp [dependencyRecords, keysOf, List.map_map]

/-- Claim C2 (counterexample): a manifest declaring `tokio` before
`serde` produces its records in sorted key order `serde`, `tokio` — not
in manifest-declared order. -/
theorem dependency_declared_order_counterexample :
    keysOf declC2 = ["tokio", "serde"] ∧
    (dependencyRecords fetchNone date0 mC2).map (fun r => r.1) = ["serde", "tokio"] ∧
    (dependencyRecords fetchNone date0 mC2).map (fun r => r.1) ≠ keysOf declC2 :=
  ⟨rfl, rfl, by decide⟩

/-- Claim C2 (amended): the dependency-mode bibliography emits one
record per distinct dependency name in lexicographically sorted name
order (the `BTreeMap` iteration order), not declaration order — the key
set is exactly the declared names — and across multiple manifests the
per-manifest outputs concatenate in manifest-discovery order with no
de-duplication. -/
theorem dependencies_sorted_order (fetch : String → Option CrateInfo) (date : Date)
    (pkg : PackageInfo) (decl : List (String × DependencyInfo))
    (opt : CitationOption) (ms : List ManifestInfo) :
    ((dependencyRecords fetch date ⟨pkg, some (btreeFromList decl)⟩).map
      (fun r => r.1)).Pairwise (fun a b => strLtb a b = true) ∧
    (∀ k, k ∈ (dependencyRecords fetch date ⟨pkg, some (btreeFromList decl)⟩).map
      (fun r => r.1) ↔ k ∈ keysOf decl) ∧
    (opt.dependencies = true →
      (loopFiles fetch date opt (ms.map okCtx)).allDeps =
        concatStrings (ms.map (build_dependencies_bibtex fetch date))) := by
  refine ⟨?_, ?_, ?_⟩
  · rw [dependencyRecords_keys]
    exact keys_btreeFromList_sorted decl
  · intro k
    rw [dependencyRecords_keys]
    exact mem_keys_btreeFromList decl k
  · intro hdep
    induction ms with
    | nil => rfl
    | cons m rest ih =>
      simp only [List.map_cons, loopFiles,
        processCargoFile_dep_okCtx fetch date opt m hdep, concatStrings, hdep,
        if_true]
      rw [ih]

/-- Witness for claim C2 at concrete inputs: records of `mC2` come out
sorted, their keys are the declared names, and the loop over one
manifest accumulates exactly its bibliography text. -/
theorem dependencies_sorted_order_witness :
    ((dependencyRecords fetchNone date0 mC2).map (fun r => r.1)).Pairwise
      (fun a b => strLtb a b = true) ∧
    ("tokio" ∈ (dependencyRecords fetchNone date0 mC2).map (fun r => r.1) ↔
      "tokio" ∈ keysOf declC2) ∧
    (loopFiles fetchNone date0 optDeps [okCtx mC2]).allDeps =
      concatStrings [build_dependencies_bibtex fetchNone date0 mC2] := by
  have h := dependencies_sorted_order fetchNone date0 pkg0 declC2 optDeps [mC2]
  exact ⟨h.1, h.2.1 "tokio", h.2.2 rfl⟩

/-- A name containing the separator is a bad author. -/
theorem badAuthor_of_infix {a : List Char} (h : sepChars <:+: a) : badAuthor a := by
  obtain ⟨s, t, hst⟩ := h
  exact ⟨' ' :: s, t ++ [' '], by rw [← hst]; simp⟩

/-- A name ending in `" and"` is a bad author. -/
theorem badAuthor_of_endsWith {a u : List Char} (h : a = u ++ [' ', 'a', 'n', 'd']) :
    badAuthor a := by
  refine ⟨' ' :: u, [], ?_⟩
  rw [h]
  simp [sepChars]

/-- A name starting with `"and "` is a bad author. -/
theorem badAuthor_of_startsWith {a u : List Char} (h : a = ['a', 'n', 'd', ' '] ++ u) :
    badAuthor a := by
  refine ⟨[], u ++ [' '], ?_⟩
  rw [h]
  simp [sepChars]

/-- The characters of the author join are the join of the characters. -/
theorem author_field_data : ∀ (as : List String),
    (author_field as).data = jf (as.map String.data) := by
  intro as
  induction as with
  | nil => rfl
  | cons a rest ih =>
    cases rest with
    | nil => rfl
    | cons b r =>
      show (a ++ " and " ++ author_field (b :: r)).data = _
      rw [String.data_append, String.data_append, ih]
      rfl

/-- If no nonempty suffix of `x` continued by `y` starts with `p`, then
occurrences of `p` in `x ++ y` are exactly occurrences in `y`. -/
theorem countOcc_append_skip (p x y : List Char)
    (h : ∀ s, s <:+ x → s ≠ [] → ¬ p <+: (s ++ y)) :
    countOcc p (x ++ y) = countOcc p y := by
  induction x with
  | nil => simp
  | cons c t ih =>
    have h1 : ¬ p <+: ((c :: t) ++ y) := h (c :: t) (List.suffix_refl _) (by simp)
    have h2 : ∀ s, s <:+ t → s ≠ [] → ¬ p <+: (s ++ y) := by
      intro s hs hne
      exact h s (hs.trans (List.suffix_cons c t)) hne
    calc countOcc p ((c :: t) ++ y)
        = (if p <+: (c :: (t ++ y)) then 1 else 0) + countOcc p (t ++ y) := rfl
      _ = countOcc p (t ++ y) := by
          rw [if_neg (by simpa using h1)]
          omega
      _ = countOcc p y := ih h2

/-- No occurrence of the separator can start inside a good author name,
whether the name is last (followed by nothing) or followed by a
separator block. -/
theorem not_prefix_in_author {a : List Char} (hBad : ¬ badAuthor a) (y : List Char)
    (hy : y = [] ∨ ∃ R, y = sepChars ++ R) :
    ∀ s, s <:+ a → s ≠ [] → ¬ sepChars <+: (s ++ y) := by
  intro s hs hne hpre
  obtain ⟨t, ht⟩ := hpre
  obtain ⟨u, hu⟩ := hs
  rcases hy with rfl | ⟨R, rfl⟩
  · rw [List.append_nil] at ht
    apply hBad
    apply badAuthor_of_infix
    refine ⟨u, t, ?_⟩
    rw [← hu, ← ht]
    simp [List.append_assoc]
  · rcases s with _ | ⟨c1, s1⟩
    · exact hne rfl
    rcases s1 with _ | ⟨c2, s2⟩
    · simp only [sepChars, List.cons_append, List.nil_append, List.cons.injEq] at ht
      exact absurd ht.2.1 (by decide)
    rcases s2 with _ | ⟨c3, s3⟩
    · simp only [sepChars, List.cons_append, List.nil_append, List.cons.injEq] at ht
      exact absurd ht.2.2.1 (by decide)
    rcases s3 with _ | ⟨c4, s4⟩
    · simp only [sepChars, List.cons_append, List.nil_append, List.cons.injEq] at ht
      exact absurd ht.2.2.2.1 (by decide)
    rcases s4 with _ | ⟨c5, s5⟩
    · simp only [sepChars, List.cons_append, List.nil_append, List.cons.injEq] at ht
      obtain ⟨e1, e2, e3, e4, _⟩ := ht
      apply hBad
      apply badAuthor_of_endsWith (u := u)
      rw [← hu, ← e1, ← e2, ← e3, ← e4]
    · simp only [sepChars, List.cons_append, List.nil_append, List.cons.injEq] at ht
      obtain ⟨e1, e2, e3, e4, e5, _⟩ := ht
      apply hBad
      apply badAuthor_of_infix
      refine ⟨u, s5, ?_⟩
      rw [← hu, ← e1, ← e2, ← e3, ← e4, ← e5]
      simp [sepChars]

/-- Counting across a separator block: the block itself is one
occurrence, and nothing else starts inside it unless what follows
begins with `"and "`. -/
theorem countOcc_sep_block (R : List Char) (hR : ¬ (['a', 'n', 'd', ' '] <+: R)) :
    countOcc sepChars (sepChars ++ R) = 1 + countOcc sepChars R := by
  have c0 : sepChars <+: (' ' :: 'a' :: 'n' :: 'd' :: ' ' :: R) := ⟨R, rfl⟩
  have c1 : ¬ sepChars <+: ('a' :: 'n' :: 'd' :: ' ' :: R) := by
    intro h
    obtain ⟨t, ht⟩ := h
    simp only [sepChars, List.cons_append, List.nil_append, List.cons.injEq] at ht
    exact absurd ht.1 (by decide)
  have c2 : ¬ sepChars <+: ('n' :: 'd' :: ' ' :: R) := by
    intro h
    obtain ⟨t, ht⟩ := h
    simp only [sepChars, List.cons_append, List.nil_append, List.cons.injEq] at ht
    exact absurd ht.1 (by decide)
  have c3 : ¬ sepChars <+: ('d' :: ' ' :: R) := by
    intro h
    obtain ⟨t, ht⟩ := h
    simp only [sepChars, List.cons_append, List.nil_append, List.cons.injEq] at ht
    exact absurd ht.1 (by decide)
  have c4 : ¬ sepChars <+: (' ' :: R) := by
    intro h
    obtain ⟨t, ht⟩ := h
    simp only [sepChars, List.cons_append, List.nil_append, List.cons.injEq] at ht
    exact hR ⟨t, by simpa using ht⟩
  show countOcc sepChars (' ' :: 'a' :: 'n' :: 'd' :: ' ' :: R) = 1 + countOcc sepChars R
  simp only [countOcc]
  rw [if_pos c0, if_neg c1, if_neg c2, if_neg c3, if_neg c4]
  omega

/-- The join of good author names never starts with `"and "`. -/
theorem ands_not_prefix_jf : ∀ (l : List (List Char)), l ≠ [] →
    (∀ a ∈ l, ¬ badAuthor a) → ¬ (['a', 'n', 'd', ' '] <+: jf l) := by
  intro l hne H hp
  obtain ⟨t, ht⟩ := hp
  rcases l with _ | ⟨a2, rest⟩
  · exact hne rfl
  rcases rest with _ | ⟨b, r⟩
  · exact H a2 (by simp) (badAuthor_of_startsWith (u := t) ht.symm)
  · rcases a2 with _ | ⟨c1, a3⟩
    · simp only [jf, sepChars, List.cons_append, List.nil_append, List.append_assoc,
        List.cons.injEq] at ht
      exact absurd ht.1 (by decide)
    rcases a3 with _ | ⟨c2, a4⟩
    · simp only [jf, sepChars, List.cons_append, List.nil_append, List.append_assoc,
        List.cons.injEq] at ht
      exact absurd ht.2.1 (by decide)
    rcases a4 with _ | ⟨c3, a5⟩
    · simp only [jf, sepChars, List.cons_append, List.nil_append, List.append_assoc,
        List.cons.injEq] at ht
      exact absurd ht.2.2.1 (by decide)
    rcases a5 with _ | ⟨c4, a6⟩
    · simp only [jf, sepChars, List.cons_append, List.nil_append, List.append_assoc,
        List.cons.injEq] at ht
      obtain ⟨e1, e2, e3, _⟩ := ht
      refine H [c1, c2, c3] (by simp) ⟨[], [], ?_⟩
      rw [← e1, ← e2, ← e3]
      simp [sepChars]
    · simp only [jf, sepChars, List.cons_append, List.nil_append, List.append_assoc,
        List.cons.injEq] at ht
      obtain ⟨e1, e2, e3, e4, _⟩ := ht
      refine H (c1 :: c2 :: c3 :: c4 :: a6) (by simp)
        (badAuthor_of_startsWith (u := a6) ?_)
      rw [← e1, ← e2, ← e3, ← e4]
      rfl

/-- Occurrences of the separator in the join of good author names:
exactly one per join boundary. -/
theorem countOcc_jf : ∀ (l : List (List Char)), (∀ a ∈ l, ¬ badAuthor a) →
    countOcc sepChars (jf l) = l.length - 1 := by
  intro l
  induction l with
  | nil => intro H; rfl
  | cons a rest ih =>
    intro H
    cases rest with
    | nil =>
      have h0 : countOcc sepChars (a ++ []) = countOcc sepChars [] :=
        countOcc_append_skip sepChars a []
          (not_prefix_in_author (H a (by simp)) [] (Or.inl rfl))
      simpa using h0
    | cons b r =>
      have hA : countOcc sepChars (a ++ (sepChars ++ jf (b :: r))) =
          countOcc sepChars (sepChars ++ jf (b :: r)) :=
        countOcc_append_skip sepChars a (sepChars ++ jf (b :: r))
          (not_prefix_in_author (H a (by simp)) _ (Or.inr ⟨_, rfl⟩))
      have hB : countOcc sepChars (sepChars ++ jf (b :: r)) =
          1 + countOcc sepChars (jf (b :: r)) :=
        countOcc_sep_block _ (ands_not_prefix_jf (b :: r) (by simp)
          (fun x hx => H x (by simp [hx])))
      have hC := ih (fun x hx => H x (by simp [hx]))
      show countOcc sepChars (a ++ sepChars ++ jf (b :: r)) = (a :: b :: r).length - 1
      rw [List.append_assoc, hA, hB, hC]
      simp only [List.length_cons]
      omega

/-- Claim C8 (counterexample): for the author list `["x and y"]` of
length 1, the join contains one occurrence of `" and "`, not k−1 = 0 —
the claimed count fails when an author name itself contains the
separator. -/
theorem author_join_count_counterexample :
    countOcc sepChars (author_field ["x and y"]).data = 1 ∧
    (["x and y"] : List String).length - 1 = 0 ∧
    countOcc sepChars (author_field ["x and y"]).data ≠
      (["x and y"] : List String).length - 1 :=
  ⟨by decide, rfl, by decide⟩

/-- Claim C8 (amended): the author string is the authors joined with
`" and "` in input order and is empty for the empty list; and for every
author list none of whose names, padded with one space on each side,
contains `" and "` (i.e. no name contains `" and "`, starts with
`"and "`, or ends with `" and"`), the join contains exactly k−1
occurrences of `" and "`. -/
theorem author_join_amended :
    author_field [] = "" ∧
    (∀ (a : String) (rest : List String), rest ≠ [] →
      author_field (a :: rest) = a ++ " and " ++ author_field rest) ∧
    (∀ as : List String, (∀ a ∈ as, ¬ badAuthor a.data) →
      countOcc sepChars (author_field as).data = as.length - 1) := by
  refine ⟨rfl, ?_, ?_⟩
  · intro a rest hne
    cases rest with
    | nil => exact absurd rfl hne
    | cons b r => rfl
  · intro as H
    have hH : ∀ x ∈ as.map String.data, ¬ badAuthor x := by
      intro x hx
      obtain ⟨a, ha, hax⟩ := List.mem_map.mp hx
      rw [← hax]
      exact H a ha
    rw [author_field_data, countOcc_jf (as.map String.data) hH]
    simp

/-- Witness for claim C8 at a concrete input: two ordinary author names
join with exactly one separator occurrence. -/
theorem author_join_amended_witness :
    countOcc sepChars (author_field ["Ada Lovelace", "Grace Hopper"]).data = 1 := by
  have h := author_join_amended.2.2 ["Ada Lovelace", "Grace Hopper"] (by decide)
  exact h
